import Mathlib

/-
  Verification of the MailShield content-safety analyzer (src/server.js).

  JavaScript strings are embedded as lists of characters; possibly-absent
  (undefined/null) values as `Option`; the two external HTTP calls
  (Google Safe Browsing, LanguageTool) as oracle parameters giving either the
  response data or the error an axios call would raise (transport failure or
  non-2xx status).  All definitions are translated from src/server.js.
-/

namespace MailShield

/-- A JavaScript string, embedded as its list of characters. -/
abbrev Str := List Char

/-- JS `String.prototype.toLowerCase()` (character-wise lowering). -/
def lowerStr (s : Str) : Str := s.map Char.toLower

/-- JS `s.includes(sub)`: `sub` occurs in `s` as a contiguous substring. -/
def jsIncludes (s sub : Str) : Bool := s.tails.any (fun t => sub.isPrefixOf t)

/-- JS `s.endsWith(sub)`. -/
def jsEndsWith (s sub : Str) : Bool := List.isSuffixOf sub s

/-- JS `s.trim()`: strip whitespace from both ends. -/
def jsTrim (s : Str) : Str :=
  ((s.dropWhile Char.isWhitespace).reverse.dropWhile Char.isWhitespace).reverse

/-- JS `s || d` where `s` is a possibly-absent string: an absent/undefined value
and the empty string are both falsy, so both give the default `d`. -/
def jsOrStr (s : Option Str) (d : Str) : Str :=
  match s with
  | none => d
  | some t => if t = [] then d else t

/-- Truthiness of a possibly-absent string (`undefined`, `null` and `''` are
falsy). -/
def jsTruthy (s : Option Str) : Bool :=
  match s with
  | none => false
  | some t => !t.isEmpty

/-! ### Link heuristic scorer (server.js lines 34-49) -/

/-- The `suspiciousTokens` array of `heuristicLinkCheck`. -/
def suspiciousTokens : List Str :=
  ["verify", "login", "confirm", "secure", "account",
   "update", "reset", "bank", "paypal", "signin",
   "claim", "won", "congrats"].map String.toList

/-- The `oddTlds` array of `heuristicLinkCheck`. -/
def oddTlds : List Str :=
  [".ru", ".cn", ".tk", ".ml", ".ga", ".cf", ".gq"].map String.toList

/-- The reason string pushed for a matched token: `contains "<tok>"`. -/
def containsReason (tok : Str) : Str :=
  "contains \"".toList ++ tok ++ "\"".toList

/-- The reason string pushed when the URL contains `xn--`. -/
def punycodeReason : Str := "punycode / idn suspicious".toList

/-- The reason string pushed for a matched odd TLD: `tld <t>`. -/
def tldReason (t : Str) : Str := "tld ".toList ++ t

/-- A `forEach` loop that conditionally pushes `f x` onto an accumulator
array, as in the two loops of `heuristicLinkCheck`. -/
def pushIf (p : α → Bool) (f : α → Str) (acc : List Str) (xs : List α) : List Str :=
  xs.foldl (fun a x => if p x then a ++ [f x] else a) acc

/-- Embedding of `heuristicLinkCheck(url)` (server.js lines 34-49).  The argument is
`Option Str` because the function guards with `(url || '')`. -/
def heuristicLinkCheck (url : Option Str) : List Str :=
  let lower := lowerStr (jsOrStr url [])
  let reasons := pushIf (fun tok => jsIncludes lower tok) containsReason [] suspiciousTokens
  let reasons :=
    if jsIncludes lower ("xn--".toList) then reasons ++ [punycodeReason] else reasons
  pushIf (fun t => jsEndsWith lower t) tldReason reasons oddTlds

/-! ### External-call embedding -/

/-- Outcome of one attempted axios call: the resolved response data, or the
error raised on transport failure / non-2xx status (carrying the payload the
catch block would read off the error). -/
inductive CallOutcome (α : Type) where
  | ok (data : α)
  | exn (err : Str)

/-! ### Threat-list client: `googleSafeBrowsingLookup` (lines 51-72) -/

/-- One element of `resp.data.matches` from the Safe Browsing API; each field
models the corresponding truthiness-tested path (`m.threat && m.threat.url`,
`m.threatEntry && m.threatEntry.url`, `m.threatType`). -/
structure SBMatch where
  threatUrl : Option Str
  threatEntryUrl : Option Str
  threatType : Option Str
deriving DecidableEq

/-- The `entryUrl` resolution in the `sb.matches.forEach` callback (lines 114-118). -/
def sbEntryUrl (m : SBMatch) : Option Str :=
  if jsTruthy m.threatUrl then m.threatUrl
  else if jsTruthy m.threatEntryUrl then m.threatEntryUrl
  else none

/-- Return value of `googleSafeBrowsingLookup`:
`{ success: true, matches }` or `{ success: false, error }`. -/
inductive SBResult where
  | ok (matchList : List SBMatch)
  | fail (error : Str)
deriving DecidableEq

/-- Embedding of `googleSafeBrowsingLookup(urls)` (lines 51-72), for a fixed configured
`GOOGLE_KEY` (already trimmed; the unset variable gives `''` = `[]`).
`net` is the network oracle for the one batched POST; the second component of
the result records whether that network call was issued at all.
`resp.data && resp.data.matches ? resp.data.matches : []` is modelled by the
oracle delivering `Option (List SBMatch)` and `getD []`. -/
def googleSafeBrowsingLookup (apiKey : Str) (urls : List Str)
    (net : List Str → CallOutcome (Option (List SBMatch))) : SBResult × Bool :=
  if apiKey = [] then (.ok [], false)
  else
    match net urls with
    | .ok dataMatches => (.ok (dataMatches.getD []), true)
    | .exn e => (.fail e, true)

/-! ### Grammar client and grammar-issue filter (lines 18-31, 74-88) -/

/-- One element of the LanguageTool `matches` array; only the fields the
filter reads, each possibly absent. -/
structure GrammarIssue where
  severity : Option Str
  message : Option Str
  context : Option Str
  ruleId : Option Str
deriving DecidableEq

/-- The LanguageTool response body (`lt.data`): the filter only reads its
`matches` field, which may be absent/null. -/
structure LTData where
  matchList : Option (List GrammarIssue)
deriving DecidableEq

/-- Return value of `languageToolCheck`:
`{ success: true, data }` or `{ success: false, error }`. -/
inductive LTResult where
  | ok (data : Option LTData)
  | fail (error : Str)
deriving DecidableEq

/-- Embedding of `languageToolCheck(text)` (lines 74-88): the whole body is a try/catch
around one axios POST, so the result is exactly the tagged oracle outcome. -/
def languageToolCheck (text : Str) (net : Str → CallOutcome (Option LTData)) : LTResult :=
  match net text with
  | .ok data => .ok data
  | .exn e => .fail e

/-- The nine chained `.filter` calls of `filterGrammarIssues` (lines 21-30).
An anchored regex `/^RULE$/.test(i.ruleId)` on an absent `ruleId` tests the
string "undefined" and never matches, so it is `i.ruleId == some rule`. -/
def filterGrammarMatches (ms : List GrammarIssue) : List GrammarIssue :=
  ms.filter (fun i => i.severity == some ("error".toList))
    |>.filter (fun i => jsTruthy i.message && decide (5 < (jsTrim (jsOrStr i.message [])).length))
    |>.filter (fun i => jsTruthy i.context && decide (10 < (jsTrim (jsOrStr i.context [])).length))
    |>.filter (fun i => !(i.ruleId == some ("MORFOLOGIK_RULE_EN_US".toList)))
    |>.filter (fun i => !(i.ruleId == some ("COMMA_PARENTHESIS_WHITESPACE".toList)))
    |>.filter (fun i => !(i.ruleId == some ("SEND_AN_EMAIL".toList)))
    |>.filter (fun i => !(i.ruleId == some ("MISSING_COMMA_AFTER_YEAR".toList)))
    |>.filter (fun i => !(i.ruleId == some ("EN_DASH_RULE".toList)))
    |>.filter (fun i => !(i.ruleId == some ("EN_QUOTES".toList)))

/-- Embedding of `filterGrammarIssues(issues)` (lines 18-31): `!issues || !issues.matches`
short-circuits to `[]` (note an empty `matches` array is truthy in JS and
proceeds through the — vacuous — filter chain, with the same result). -/
def filterGrammarIssues (issues : Option LTData) : List GrammarIssue :=
  match issues with
  | none => []
  | some d =>
    match d.matchList with
    | none => []
    | some ms => filterGrammarMatches ms

/-! ### Phishing phrase matcher (lines 137-143) -/

/-- The `phishingPhrases` array (lines 138-141). -/
def phishingPhrases : List Str :=
  ["you won", "claim your", "click here", "verify your account",
   "update your account", "urgent", "congratulations", "prize", "winner"].map String.toList

/-- The scan `phishingPhrases.filter(p => textLow.includes(p))` (lines 142-143); the
route passes the already-truncated `text`, and `(text || '')` on a plain
string is the string itself. -/
def foundPhrases (text : Str) : List Str :=
  phishingPhrases.filter (fun p => jsIncludes (lowerStr text) p)

/-! ### Overall verdict (lines 145-151) -/

/-- The `grammar` response field: `null` is represented by `Option.none`
around this type; `result` is `{ ...lt.data, matches: filterGrammarIssues(lt.data) }`
and `err` is `{ error: ... }` (which has no `matches` property). -/
inductive GrammarField where
  | result (data : Option LTData) (matchList : List GrammarIssue)
  | err (error : Str)
deriving DecidableEq

/-- One element pushed onto `suspiciousLinks` (pre-deduplication). -/
structure LinkEntry where
  url : Str
  reasons : List Str
deriving DecidableEq

/-- The entry pushed for one Safe Browsing match (line 119). -/
def sbMatchEntry (m : SBMatch) : LinkEntry :=
  { url := jsOrStr (sbEntryUrl m) ("(unknown)".toList),
    reasons := ["Google Safe Browsing match: ".toList ++ jsOrStr m.threatType ("THREAT".toList)] }

inductive Verdict where
  | safe
  | warning
  | suspicious
deriving DecidableEq

/-- The `overall` computation (lines 146-151): `grammar && grammar.matches &&
grammar.matches.length > 15`.  An error-marker grammar object has no
`matches` property (falsy), an absent grammar is `null`. -/
def overall (suspiciousLinks : List LinkEntry) (phrases : List Str)
    (grammar : Option GrammarField) : Verdict :=
  if 0 < suspiciousLinks.length ∨ 0 < phrases.length then .suspicious
  else
    match grammar with
    | some (.result _ ms) => if 15 < ms.length then .warning else .safe
    | _ => .safe

/-! ### Deduplication of suspicious links (lines 153-159) -/

/-- The `Map` of line 154, as an insertion-ordered association list. -/
abbrev ReasonMap := List (Str × List Str)

/-- JS `map.get(k)` (first entry with the key). -/
def mapGet : ReasonMap → Str → Option (List Str)
  | [], _ => none
  | p :: m, k => if p.1 = k then some p.2 else mapGet m k

/-- JS `map.has(k)` / key membership. -/
def mapHasKey : ReasonMap → Str → Bool
  | [], _ => false
  | p :: m, k => p.1 = k || mapHasKey m k

/-- Replace the value stored under an existing key, keeping its position. -/
def mapUpdate : ReasonMap → Str → List Str → ReasonMap
  | [], _, _ => []
  | p :: m, k, v => (if p.1 = k then (k, v) else p) :: mapUpdate m k v

/-- JS `map.set(k, v)`: update in place if the key is present (JS `Map` keeps the
original insertion position), otherwise append. -/
def mapSet (m : ReasonMap) (k : Str) (v : List Str) : ReasonMap :=
  if mapHasKey m k then mapUpdate m k v else m ++ [(k, v)]

/-- The grouping loop `suspiciousLinks.forEach(s => map.set(s.url, (map.get(s.url) || []).concat(s.reasons)))`
(line 155), generalized over the starting map. -/
def foldGroup (m : ReasonMap) (susp : List LinkEntry) : ReasonMap :=
  susp.foldl (fun acc s => mapSet acc s.url ((mapGet acc s.url).getD [] ++ s.reasons)) m

/-- The grouping map built on line 155 (starting from an empty `Map`). -/
def buildReasonMap (susp : List LinkEntry) : ReasonMap := foldGroup [] susp

/-- JS `Array.from(new Set(l))`: keep the first occurrence of each element. -/
def jsSetDedupAux (seen : List Str) : List Str → List Str
  | [] => []
  | x :: xs => if x ∈ seen then jsSetDedupAux seen xs else x :: jsSetDedupAux (x :: seen) xs

/-- JS `Array.from(new Set(l))` starting from nothing seen. -/
def jsSetDedup (l : List Str) : List Str := jsSetDedupAux [] l

/-- One element of the final `suspiciousLinks` response field: the reasons are
joined into a single display string. -/
structure FinalEntry where
  url : Str
  reasons : Str
deriving DecidableEq

/-- The `', '` separator of the `join` on line 158. -/
def commaSep : Str := ", ".toList

/-- The `finalSuspicious` construction (lines 156-159). -/
def finalSuspicious (susp : List LinkEntry) : List FinalEntry :=
  (buildReasonMap susp).map
    (fun p => { url := p.1, reasons := List.intercalate commaSep (jsSetDedup p.2) })

/-! ### The analyze route (lines 91-175) -/

/-- The `payload` object of the request body; `links` is `none` when the field
is absent or not an array (`Array.isArray` fails). -/
structure Payload where
  text : Option Str
  subject : Option Str
  snippet : Option Str
  links : Option (List Str)

/-- The recognized `options` flags (`options.linkScanner`, `options.grammarChecker`
are truthiness-tested). -/
structure Options where
  linkScanner : Bool
  grammarChecker : Bool

/-- The request body: `payload` may be absent (`if (!payload)`), and `options`
may be absent (`options && options.linkScanner`). -/
structure ReqBody where
  payload : Option Payload
  options : Option Options

/-- The 200 response body (line 162-169), minus the constant `success: true`. -/
structure AnalyzeOk where
  subject : Str
  snippet : Str
  textLength : Nat
  suspiciousLinks : List FinalEntry
  grammar : Option GrammarField
  foundPhrases : List Str
  overall : Verdict
deriving DecidableEq

/-- The observable response of `POST /api/analyze`. -/
inductive AnalyzeResponse where
  | badRequest (error : Str)
  | ok (r : AnalyzeOk)
deriving DecidableEq

/-- Body of the `/api/analyze` handler after payload validation
(lines 96-169), with the two network calls supplied as oracles. -/
def analyzeResult (apiKey : Str) (p : Payload) (opts : Option Options)
    (sbNet : List Str → CallOutcome (Option (List SBMatch)))
    (ltNet : Str → CallOutcome (Option LTData)) : AnalyzeOk :=
  let links := match p.links with | some l => l.take 50 | none => []
  let text := (jsOrStr p.text []).take 30000
  let subject := jsOrStr p.subject []
  let snippet := jsOrStr p.snippet (text.take 200)
  let linkScan := match opts with | some o => o.linkScanner | none => false
  let grammarChk := match opts with | some o => o.grammarChecker | none => false
  let suspiciousLinks : List LinkEntry :=
    if linkScan then
      (match (googleSafeBrowsingLookup apiKey links sbNet).1 with
        | .ok ms => ms.map sbMatchEntry
        | .fail _ => []) ++
      links.filterMap (fun url =>
        let reasons := heuristicLinkCheck (some url)
        if 0 < reasons.length then some { url := url, reasons := reasons } else none)
    else []
  let grammar : Option GrammarField :=
    if grammarChk && !text.isEmpty && decide (10 ≤ text.length) then
      match languageToolCheck text ltNet with
      | .ok data => some (.result data (filterGrammarIssues data))
      | .fail e => some (.err (jsOrStr (some e) ("LanguageTool error".toList)))
    else none
  let fnd := foundPhrases text
  { subject := subject, snippet := snippet, textLength := text.length,
    suspiciousLinks := finalSuspicious suspiciousLinks, grammar := grammar,
    foundPhrases := fnd, overall := overall suspiciousLinks fnd grammar }

/-- The `/api/analyze` handler (lines 91-175). -/
def analyze (apiKey : Str) (body : ReqBody)
    (sbNet : List Str → CallOutcome (Option (List SBMatch)))
    (ltNet : Str → CallOutcome (Option LTData)) : AnalyzeResponse :=
  match body.payload with
  | none => .badRequest ("Missing payload".toList)
  | some p => .ok (analyzeResult apiKey p body.options sbNet ltNet)

/-! ### Statement helpers (defined from the source expressions above) -/

/-- The lower-cased string the scorer matches against. -/
def lowerUrl (url : Option Str) : Str := lowerStr (jsOrStr url [])

/-- Every reason string the dictionaries can produce. -/
def allReasons : List Str :=
  suspiciousTokens.map containsReason ++ [punycodeReason] ++ oddTlds.map tldReason

/-- The normalization the route applies up front: text truncated to 30,000
characters, links (when an array) to their first 50 entries. -/
def normPayload (p : Payload) : Payload :=
  { p with text := some ((jsOrStr p.text []).take 30000),
           links := p.links.map (fun l => l.take 50) }

/-- All reasons contributed (by any source, in contribution order) for one
url across a suspicious-link evidence list. -/
def reasonsFor (susp : List LinkEntry) (u : Str) : List Str :=
  ((susp.filter (fun e => e.url = u)).map LinkEntry.reasons).flatten

/-! ## Basic lemmas -/

theorem jsOrStr_some_nil (s : Str) : jsOrStr (some s) [] = s := by
  by_cases h : s = [] <;> simp [jsOrStr, h]

/-! ## Claim C6 -/

/-- C6: with no configured API credential (empty trimmed key), the threat-list
client returns success with an empty match list for every URL list, and the
network flag shows that no network call was attempted (the result is the same
for every network oracle). -/
theorem googleSafeBrowsingLookup_no_key (urls : List Str)
    (net : List Str → CallOutcome (Option (List SBMatch))) :
    googleSafeBrowsingLookup [] urls net = (.ok [], false) := rfl

/-! ## Claim C5 -/

/-- C5: failures of the threat-list call and the grammar call are never
propagated as exceptions: each wrapper maps a raised transport/non-2xx error
to a success=false result carrying the error payload, maps a resolved
response to a success=true result, and the aggregator completes normally
(producing its structured 200 result) even when both calls raise. -/
theorem external_calls_soft_fail (apiKey : Str) (urls : List Str) (text e : Str)
    (d : Option (List SBMatch)) (dl : Option LTData) (hk : apiKey ≠ []) :
    googleSafeBrowsingLookup apiKey urls (fun _ => .exn e) = (.fail e, true) ∧
    googleSafeBrowsingLookup apiKey urls (fun _ => .ok d) = (.ok (d.getD []), true) ∧
    languageToolCheck text (fun _ => .exn e) = .fail e ∧
    languageToolCheck text (fun _ => .ok dl) = .ok dl ∧
    ∀ (p : Payload) (opts : Option Options),
      analyze apiKey ⟨some p, opts⟩ (fun _ => .exn e) (fun _ => .exn e) =
        .ok (analyzeResult apiKey p opts (fun _ => .exn e) (fun _ => .exn e)) := by
  refine ⟨?_, ?_, rfl, rfl, fun p opts => rfl⟩ <;> simp [googleSafeBrowsingLookup, hk]

theorem external_calls_soft_fail_witness :
    googleSafeBrowsingLookup ("k".toList) ["http://a.example".toList]
        (fun _ => .exn ("boom".toList)) = (.fail ("boom".toList), true) :=
  (external_calls_soft_fail ("k".toList) ["http://a.example".toList] []
    ("boom".toList) none none (by decide)).1

/-! ## Claim C2 -/

/-- C2: verdict precedence: any suspicious-link evidence or any matched
phishing phrase gives `suspicious`; otherwise a grammar result with more than
15 filtered issues gives `warning`; otherwise (no grammar result, an error
marker, or at most 15 issues) the verdict is `safe`. -/
theorem overall_precedence (susp : List LinkEntry) (phr : List Str) (g : Option GrammarField) :
    (0 < susp.length ∨ 0 < phr.length → overall susp phr g = .suspicious) ∧
    (susp = [] → phr = [] →
      ∀ d ms, g = some (.result d ms) → 15 < ms.length → overall susp phr g = .warning) ∧
    (susp = [] → phr = [] →
      (∀ d ms, g = some (.result d ms) → ms.length ≤ 15) → overall susp phr g = .safe) := by
  refine ⟨fun h => by simp [overall, h], ?_, ?_⟩
  · rintro rfl rfl d ms rfl h
    simp [overall, h]
  · rintro rfl rfl h
    match g with
    | none => simp [overall]
    | some (.err e) => simp [overall]
    | some (.result d ms) =>
      have hle := h d ms rfl
      simp [overall, Nat.not_lt.mpr hle]

theorem overall_precedence_witness :
    overall [] [] (some (.result none (List.replicate 20 ⟨none, none, none, none⟩))) = .warning ∧
    overall [⟨"http://u.example".toList, []⟩] []
        (some (.result none (List.replicate 20 ⟨none, none, none, none⟩))) = .suspicious :=
  ⟨(overall_precedence _ _ _).2.1 rfl rfl none _ rfl (by decide),
   (overall_precedence _ _ _).1 (by decide)⟩

/-! ## Claim C9 -/

/-- C9: the phishing phrase matcher is a pure total function returning exactly
the dictionary phrases contained case-insensitively in the text, as a
subsequence of the fixed dictionary (hence in dictionary order). -/
theorem foundPhrases_spec (t : Str) :
    (∀ p, p ∈ foundPhrases t ↔ p ∈ phishingPhrases ∧ jsIncludes (lowerStr t) p = true) ∧
    List.Sublist (foundPhrases t) phishingPhrases := by
  constructor
  · intro p
    simp [foundPhrases, List.mem_filter]
  · exact List.filter_sublist _

/-! ## Claim C4 -/

/-- Every survivor of the filter chain satisfies all nine predicates. -/
theorem mem_filterGrammarMatches {i : GrammarIssue} {ms : List GrammarIssue}
    (h : i ∈ filterGrammarMatches ms) :
    (i.severity == some ("error".toList)) = true ∧
    (jsTruthy i.message && decide (5 < (jsTrim (jsOrStr i.message [])).length)) = true ∧
    (jsTruthy i.context && decide (10 < (jsTrim (jsOrStr i.context [])).length)) = true ∧
    (!(i.ruleId == some ("MORFOLOGIK_RULE_EN_US".toList))) = true ∧
    (!(i.ruleId == some ("COMMA_PARENTHESIS_WHITESPACE".toList))) = true ∧
    (!(i.ruleId == some ("SEND_AN_EMAIL".toList))) = true ∧
    (!(i.ruleId == some ("MISSING_COMMA_AFTER_YEAR".toList))) = true ∧
    (!(i.ruleId == some ("EN_DASH_RULE".toList))) = true ∧
    (!(i.ruleId == some ("EN_QUOTES".toList))) = true := by
  simp only [filterGrammarMatches, List.mem_filter] at h
  tauto

/-- Applying the nine-filter chain a second time changes nothing. -/
theorem filterGrammarMatches_idem (ms : List GrammarIssue) :
    filterGrammarMatches (filterGrammarMatches ms) = filterGrammarMatches ms := by
  generalize hl : filterGrammarMatches ms = l
  have hmem : ∀ i ∈ l, i ∈ filterGrammarMatches ms := fun i hi => hl ▸ hi
  rw [filterGrammarMatches,
    List.filter_eq_self.mpr (fun a ha => (mem_filterGrammarMatches (hmem a ha)).1),
    List.filter_eq_self.mpr (fun a ha => (mem_filterGrammarMatches (hmem a ha)).2.1),
    List.filter_eq_self.mpr (fun a ha => (mem_filterGrammarMatches (hmem a ha)).2.2.1),
    List.filter_eq_self.mpr (fun a ha => (mem_filterGrammarMatches (hmem a ha)).2.2.2.1),
    List.filter_eq_self.mpr (fun a ha => (mem_filterGrammarMatches (hmem a ha)).2.2.2.2.1),
    List.filter_eq_self.mpr (fun a ha => (mem_filterGrammarMatches (hmem a ha)).2.2.2.2.2.1),
    List.filter_eq_self.mpr (fun a ha => (mem_filterGrammarMatches (hmem a ha)).2.2.2.2.2.2.1),
    List.filter_eq_self.mpr (fun a ha => (mem_filterGrammarMatches (hmem a ha)).2.2.2.2.2.2.2.1),
    List.filter_eq_self.mpr (fun a ha => (mem_filterGrammarMatches (hmem a ha)).2.2.2.2.2.2.2.2)]

/-- C4: the grammar-issue filter is idempotent: feeding its own output back
in (as the `matches` list of a response object) returns that output
unchanged. -/
theorem filterGrammarIssues_idem (d : Option LTData) :
    filterGrammarIssues (some ⟨some (filterGrammarIssues d)⟩) = filterGrammarIssues d := by
  match d with
  | none => rfl
  | some dd =>
    match hm : dd.matchList with
    | none => simp [filterGrammarIssues, hm, filterGrammarMatches]
    | some ms => simp [filterGrammarIssues, hm, filterGrammarMatches_idem]

/-! ## Claim C3 -/

/-- The `text && text.length >= 10` guard: the truthiness conjunct is
redundant once the length bound holds. -/
theorem gate_simp (b : Bool) (t : Str) :
    (b && !t.isEmpty && decide (10 ≤ t.length)) = (b && decide (10 ≤ t.length)) := by
  cases t <;> simp

/-- C3: with grammar checking enabled, the grammar check runs (the grammar
response field is present) exactly when the normalized, truncated text has
length at least 10; with it disabled, or the text too short, the field is
entirely absent (`none`). -/
theorem grammar_field_gate (apiKey : Str) (p : Payload) (o : Options)
    (sbNet : List Str → CallOutcome (Option (List SBMatch)))
    (ltNet : Str → CallOutcome (Option LTData)) :
    (analyzeResult apiKey p (some o) sbNet ltNet).grammar ≠ none ↔
      (o.grammarChecker = true ∧ 10 ≤ ((jsOrStr p.text []).take 30000).length) := by
  simp only [analyzeResult]
  rw [gate_simp]
  by_cases h : (o.grammarChecker && decide (10 ≤ ((jsOrStr p.text []).take 30000).length)) = true
  · rw [if_pos h]
    rw [Bool.and_eq_true, decide_eq_true_iff] at h
    cases languageToolCheck ((jsOrStr p.text []).take 30000) ltNet <;>
      (simp [h]; have h2 := h.2; rw [List.length_take] at h2; omega)
  · rw [if_neg h]
    rw [Bool.and_eq_true, decide_eq_true_iff] at h
    simpa using h

/-! ## Claim C10 -/

/-- C10: a payload whose `links` field is absent or not an array is analyzed
exactly as if `links` were the empty array, and the request completes with
the normal 200 response. -/
theorem links_absent_treated_empty (apiKey : Str) (p : Payload) (opts : Option Options)
    (sbNet : List Str → CallOutcome (Option (List SBMatch)))
    (ltNet : Str → CallOutcome (Option LTData)) (h : p.links = none) :
    analyzeResult apiKey p opts sbNet ltNet =
      analyzeResult apiKey { p with links := some [] } opts sbNet ltNet ∧
    analyze apiKey ⟨some p, opts⟩ sbNet ltNet =
      .ok (analyzeResult apiKey p opts sbNet ltNet) :=
  ⟨by simp [analyzeResult, h], rfl⟩

theorem links_absent_treated_empty_witness :
    analyzeResult [] ⟨some "hello there friend".toList, none, none, none⟩ (some ⟨true, false⟩)
        (fun _ => .ok none) (fun _ => .ok none) =
      analyzeResult [] ⟨some "hello there friend".toList, none, none, some []⟩ (some ⟨true, false⟩)
        (fun _ => .ok none) (fun _ => .ok none) :=
  (links_absent_treated_empty [] ⟨some "hello there friend".toList, none, none, none⟩
    (some ⟨true, false⟩) (fun _ => .ok none) (fun _ => .ok none) rfl).1

/-! ## Claim C8 -/

/-- C8: truncation happens before any check runs: analyzing a payload is
identical to analyzing its pre-truncated normalization (so every downstream
check sees only the first 50 links and first 30,000 characters), and the
echoed `textLength` is the truncated length. -/
theorem truncation_before_checks (apiKey : Str) (p : Payload) (opts : Option Options)
    (sbNet : List Str → CallOutcome (Option (List SBMatch)))
    (ltNet : Str → CallOutcome (Option LTData)) :
    analyzeResult apiKey p opts sbNet ltNet =
      analyzeResult apiKey (normPayload p) opts sbNet ltNet ∧
    (analyzeResult apiKey p opts sbNet ltNet).textLength =
      min 30000 (jsOrStr p.text []).length := by
  constructor
  · cases h : p.links <;>
      simp [analyzeResult, normPayload, h, jsOrStr_some_nil, List.take_take]
  · simp [analyzeResult, List.length_take]

/-! ## Claim C7 -/

/-- A conditional-push loop is the filtered map appended to the accumulator. -/
theorem pushIf_eq (p : α → Bool) (f : α → Str) (xs : List α) :
    ∀ acc, pushIf p f acc xs = acc ++ (xs.filter p).map f := by
  induction xs with
  | nil => intro acc; simp [pushIf]
  | cons x xs ih =>
    intro acc
    have step : pushIf p f acc (x :: xs) = pushIf p f (if p x then acc ++ [f x] else acc) xs := rfl
    rw [step, ih]
    by_cases h : p x <;> simp [h, List.filter_cons]

/-- Pushing a conditional block after an accumulator. -/
theorem ite_append_push (c : Bool) (M P : List Str) :
    (if c then M ++ P else M) = M ++ (if c then P else []) := by
  cases c <;> simp

/-- Normal form of the scorer: token reasons in dictionary order, then the
punycode reason, then the TLD reasons in dictionary order. -/
theorem heuristicLinkCheck_eq (url : Option Str) :
    heuristicLinkCheck url =
      (suspiciousTokens.filter (fun tok => jsIncludes (lowerUrl url) tok)).map containsReason ++
      (if jsIncludes (lowerUrl url) ("xn--".toList) then [punycodeReason] else []) ++
      (oddTlds.filter (fun t => jsEndsWith (lowerUrl url) t)).map tldReason := by
  simp only [heuristicLinkCheck, lowerUrl]
  rw [pushIf_eq, pushIf_eq, List.nil_append, ite_append_push, List.append_assoc]

theorem containsReason_inj : Function.Injective containsReason := by
  intro a b h
  unfold containsReason at h
  exact List.append_cancel_left (List.append_cancel_right h)

/-- Count of a member of a duplicate-free list (stated over the ambient `BEq`
instance of `Str`). -/
theorem count_eq_one_of_nodup_mem : ∀ {l : List Str} {a : Str}, l.Nodup → a ∈ l → l.count a = 1 := by
  intro l
  induction l with
  | nil => intro a _ ha; cases ha
  | cons x xs ih =>
    intro a hn ha
    rw [List.count_cons]
    rcases List.mem_cons.mp ha with rfl | hmem
    · have hx : xs.count a = 0 := by
        rw [List.count_eq_zero]
        exact (List.nodup_cons.mp hn).1
      simp [hx]
    · have hne : a ≠ x := by
        intro h; subst h; exact absurd hmem (List.nodup_cons.mp hn).1
      rw [ih (List.nodup_cons.mp hn).2 hmem]
      simp [hne, Ne.symm hne]

theorem containsReason_ne_punycodeReason (tok : Str) : containsReason tok ≠ punycodeReason := by
  intro h
  have h1 : (containsReason tok).head? = some 'c' := rfl
  rw [h] at h1
  exact absurd h1 (by decide)

theorem containsReason_ne_tldReason (tok t : Str) : containsReason tok ≠ tldReason t := by
  intro h
  have h1 : (containsReason tok).head? = some 'c' := rfl
  rw [h] at h1
  have h2 : (tldReason t).head? = some 't' := rfl
  rw [h2] at h1
  exact absurd h1 (by decide)

theorem suspiciousTokens_nodup : suspiciousTokens.Nodup := by decide

/-- C7: the heuristic link scorer is a pure total function of the (possibly
absent) URL string: its output is the dictionary-ordered token reasons, then
the punycode reason when `xn--` occurs, then the odd-TLD reasons; each token
contained in the lower-cased URL contributes its reason exactly once; and the
whole output is a sublist of the fixed dictionary-derived reason list. -/
theorem heuristicLinkCheck_spec (url : Option Str) :
    heuristicLinkCheck url =
      (suspiciousTokens.filter (fun tok => jsIncludes (lowerUrl url) tok)).map containsReason ++
      (if jsIncludes (lowerUrl url) ("xn--".toList) then [punycodeReason] else []) ++
      (oddTlds.filter (fun t => jsEndsWith (lowerUrl url) t)).map tldReason ∧
    (∀ tok, tok ∈ suspiciousTokens → jsIncludes (lowerUrl url) tok = true →
      (heuristicLinkCheck url).count (containsReason tok) = 1) ∧
    List.Sublist (heuristicLinkCheck url) allReasons := by
  refine ⟨heuristicLinkCheck_eq url, ?_, ?_⟩
  · intro tok htok hinc
    rw [heuristicLinkCheck_eq, List.count_append, List.count_append]
    have c1 : ((suspiciousTokens.filter (fun tk => jsIncludes (lowerUrl url) tk)).map
        containsReason).count (containsReason tok) = 1 := by
      refine count_eq_one_of_nodup_mem ((suspiciousTokens_nodup.filter _).map containsReason_inj) ?_
      exact List.mem_map_of_mem _ (List.mem_filter.mpr ⟨htok, hinc⟩)
    have c2 : (if jsIncludes (lowerUrl url) ("xn--".toList) then [punycodeReason]
        else []).count (containsReason tok) = 0 := by
      by_cases h : jsIncludes (lowerUrl url) ("xn--".toList) <;>
        simp [h, List.count_eq_zero, containsReason_ne_punycodeReason]
    have c3 : ((oddTlds.filter (fun t => jsEndsWith (lowerUrl url) t)).map
        tldReason).count (containsReason tok) = 0 := by
      rw [List.count_eq_zero]
      intro hmem
      obtain ⟨t, _, ht⟩ := List.mem_map.mp hmem
      exact containsReason_ne_tldReason tok t ht.symm
    rw [c1, c2, c3]
  · rw [heuristicLinkCheck_eq]
    unfold allReasons
    refine List.Sublist.append (List.Sublist.append ?_ ?_) ?_
    · exact (List.filter_sublist _).map containsReason
    · by_cases h : jsIncludes (lowerUrl url) ("xn--".toList) <;> simp [h]
    · exact (List.filter_sublist _).map tldReason

theorem heuristicLinkCheck_spec_witness :
    (heuristicLinkCheck (some "http://secure-login.bank.ru".toList)).count
      (containsReason ("bank".toList)) = 1 :=
  (heuristicLinkCheck_spec (some "http://secure-login.bank.ru".toList)).2.1
    ("bank".toList) (by decide) (by decide)

/-! ## Claim C1 -/

theorem mapGet_mapUpdate (m : ReasonMap) (k u : Str) (v : List Str) :
    mapGet (mapUpdate m k v) u =
      if u = k then (if mapHasKey m k then some v else none) else mapGet m u := by
  induction m with
  | nil => by_cases h : u = k <;> simp [mapUpdate, mapGet, mapHasKey, h]
  | cons p m ih =>
    by_cases hp : p.1 = k
    · by_cases hu : u = k
      · subst hu
        simp [mapUpdate, mapGet, mapHasKey, hp]
      · have hpu : ¬ p.1 = u := by rw [hp]; exact fun h => hu h.symm
        have hku : ¬ k = u := fun h => hu h.symm
        simp [mapUpdate, mapGet, mapHasKey, hp, hu, hpu, hku, ih]
    · by_cases hpu : p.1 = u
      · have hu : ¬ u = k := by intro h; exact hp (by rw [hpu, h])
        simp [mapUpdate, mapGet, hp, hpu, hu]
      · simp [mapUpdate, mapGet, mapHasKey, hp, hpu, ih]

theorem mapGet_append (m m' : ReasonMap) (u : Str) :
    mapGet (m ++ m') u =
      match mapGet m u with
      | some v => some v
      | none => mapGet m' u := by
  induction m with
  | nil => simp [mapGet]
  | cons p m ih =>
    by_cases hp : p.1 = u <;> simp [mapGet, hp, ih]

theorem mapGet_eq_none_iff (m : ReasonMap) (u : Str) :
    mapGet m u = none ↔ mapHasKey m u = false := by
  induction m with
  | nil => simp [mapGet, mapHasKey]
  | cons p m ih => by_cases hp : p.1 = u <;> simp [mapGet, mapHasKey, hp, ih]

theorem keys_mapUpdate (m : ReasonMap) (k : Str) (v : List Str) :
    (mapUpdate m k v).map Prod.fst = m.map Prod.fst := by
  induction m with
  | nil => rfl
  | cons p m ih =>
    by_cases hp : p.1 = k <;> simp [mapUpdate, hp, ih]

theorem mapHasKey_iff_mem (m : ReasonMap) (u : Str) :
    mapHasKey m u = true ↔ u ∈ m.map Prod.fst := by
  induction m with
  | nil => simp [mapHasKey]
  | cons p m ih =>
    by_cases hp : p.1 = u
    · simp [mapHasKey, hp]
    · have hp2 : ¬ u = p.1 := fun h => hp h.symm
      simp [mapHasKey, hp, hp2, ih]

theorem keys_mapSet (m : ReasonMap) (k : Str) (v : List Str) :
    (mapSet m k v).map Prod.fst =
      if mapHasKey m k then m.map Prod.fst else m.map Prod.fst ++ [k] := by
  unfold mapSet
  by_cases h : mapHasKey m k <;> simp [h, keys_mapUpdate]

theorem nodupKeys_mapSet {m : ReasonMap} (hm : (m.map Prod.fst).Nodup) (k : Str) (v : List Str) :
    ((mapSet m k v).map Prod.fst).Nodup := by
  rw [keys_mapSet]
  by_cases h : mapHasKey m k
  · simp [h, hm]
  · have hk : k ∉ m.map Prod.fst := fun hmem => by
      rw [← mapHasKey_iff_mem] at hmem
      exact absurd hmem (by simp [h])
    simp [h, List.nodup_append, hm, hk]

theorem mapGet_mapSet (m : ReasonMap) (k u : Str) (v : List Str) :
    mapGet (mapSet m k v) u = if u = k then some v else mapGet m u := by
  unfold mapSet
  by_cases h : mapHasKey m k
  · rw [if_pos h, mapGet_mapUpdate]
    simp [h]
  · rw [if_neg h, mapGet_append]
    by_cases hu : u = k
    · subst hu
      have hnone : mapGet m u = none := (mapGet_eq_none_iff m u).mpr (by simpa using h)
      simp [hnone, mapGet]
    · cases hg : mapGet m u <;> simp [hg, mapGet, hu, Ne.symm hu]

theorem reasonsFor_cons (s : LinkEntry) (rest : List LinkEntry) (u : Str) :
    reasonsFor (s :: rest) u =
      (if s.url = u then s.reasons else []) ++ reasonsFor rest u := by
  by_cases h : s.url = u <;> simp [reasonsFor, List.filter_cons, h]

/-- Invariant of the grouping fold of line 155: the value stored under `u`
is whatever the starting map held for `u` followed by every reason
contributed for `u`, and keys appear exactly for urls that occur. -/
theorem foldGroup_get (susp : List LinkEntry) : ∀ (m : ReasonMap) (u : Str),
    mapGet (foldGroup m susp) u =
      match mapGet m u with
      | some vs => some (vs ++ reasonsFor susp u)
      | none => if u ∈ susp.map LinkEntry.url then some (reasonsFor susp u) else none := by
  induction susp with
  | nil =>
    intro m u
    cases hg : mapGet m u <;> simp [foldGroup, reasonsFor, hg]
  | cons s rest ih =>
    intro m u
    have hstep : foldGroup m (s :: rest) =
        foldGroup (mapSet m s.url ((mapGet m s.url).getD [] ++ s.reasons)) rest := rfl
    rw [hstep, ih, mapGet_mapSet, reasonsFor_cons]
    by_cases hu : u = s.url
    · subst hu
      cases hg : mapGet m s.url <;> simp [hg, List.append_assoc]
    · have hsu : ¬ s.url = u := fun h => hu h.symm
      cases hg : mapGet m u <;> simp [hg, hu, hsu]

theorem buildReasonMap_get (susp : List LinkEntry) (u : Str) :
    mapGet (buildReasonMap susp) u =
      if u ∈ susp.map LinkEntry.url then some (reasonsFor susp u) else none := by
  have h := foldGroup_get susp [] u
  simpa [buildReasonMap, mapGet] using h

theorem buildReasonMap_nodupKeys (susp : List LinkEntry) :
    ((buildReasonMap susp).map Prod.fst).Nodup := by
  have hgen : ∀ (l : List LinkEntry) (m : ReasonMap), (m.map Prod.fst).Nodup →
      ((foldGroup m l).map Prod.fst).Nodup := by
    intro l
    induction l with
    | nil => intro m hm; exact hm
    | cons s rest ih => intro m hm; exact ih _ (nodupKeys_mapSet hm _ _)
  exact hgen susp [] (by simp)

theorem mem_keys_buildReasonMap (susp : List LinkEntry) (u : Str) :
    u ∈ (buildReasonMap susp).map Prod.fst ↔ u ∈ susp.map LinkEntry.url := by
  rw [← mapHasKey_iff_mem]
  by_cases hm : u ∈ susp.map LinkEntry.url
  · simp only [hm, iff_true]
    have h2 : mapGet (buildReasonMap susp) u ≠ none := by
      rw [buildReasonMap_get]; simp [hm]
    cases h : mapHasKey (buildReasonMap susp) u
    · exact absurd ((mapGet_eq_none_iff _ _).mpr h) h2
    · rfl
  · simp only [hm, iff_false]
    have h2 : mapGet (buildReasonMap susp) u = none := by
      rw [buildReasonMap_get]; simp [hm]
    rw [mapGet_eq_none_iff] at h2
    simp [h2]

theorem mapGet_of_mem_nodup : ∀ {m : ReasonMap} {p : Str × List Str},
    (m.map Prod.fst).Nodup → p ∈ m → mapGet m p.1 = some p.2 := by
  intro m
  induction m with
  | nil => intro p _ hp; cases hp
  | cons q m ih =>
    intro p hn hp
    have hn2 : (q.1 :: m.map Prod.fst).Nodup := by simpa using hn
    rcases List.mem_cons.mp hp with rfl | hmem
    · simp [mapGet]
    · have hq : ¬ q.1 = p.1 := by
        intro h
        have hmemk : p.1 ∈ m.map Prod.fst := List.mem_map_of_mem _ hmem
        rw [← h] at hmemk
        exact (List.nodup_cons.mp hn2).1 hmemk
      simpa [mapGet, hq] using ih (List.nodup_cons.mp hn2).2 hmem

theorem mem_jsSetDedupAux : ∀ (l seen : List Str) (x : Str),
    x ∈ jsSetDedupAux seen l ↔ x ∈ l ∧ x ∉ seen := by
  intro l
  induction l with
  | nil => intro seen x; simp [jsSetDedupAux]
  | cons y l ih =>
    intro seen x
    by_cases hy : y ∈ seen
    · rw [jsSetDedupAux, if_pos hy, ih]
      constructor
      · exact fun h => ⟨List.mem_cons_of_mem y h.1, h.2⟩
      · rintro ⟨hx, hns⟩
        rcases List.mem_cons.mp hx with rfl | hx2
        · exact absurd hy hns
        · exact ⟨hx2, hns⟩
    · rw [jsSetDedupAux, if_neg hy]
      constructor
      · intro hmem
        rcases List.mem_cons.mp hmem with rfl | hrec
        · exact ⟨List.mem_cons_self _ _, hy⟩
        · have h2 := (ih (y :: seen) x).mp hrec
          exact ⟨List.mem_cons_of_mem _ h2.1, fun hs => h2.2 (List.mem_cons_of_mem _ hs)⟩
      · rintro ⟨hx, hns⟩
        rcases List.mem_cons.mp hx with rfl | hx2
        · exact List.mem_cons_self _ _
        · by_cases hxy : x = y
          · subst hxy; exact List.mem_cons_self _ _
          · refine List.mem_cons_of_mem _ ((ih (y :: seen) x).mpr ⟨hx2, ?_⟩)
            intro hs
            rcases List.mem_cons.mp hs with h | h
            · exact hxy h
            · exact hns h

theorem nodup_jsSetDedupAux : ∀ (l seen : List Str), (jsSetDedupAux seen l).Nodup := by
  intro l
  induction l with
  | nil => intro seen; simp [jsSetDedupAux]
  | cons y l ih =>
    intro seen
    by_cases hy : y ∈ seen
    · rw [jsSetDedupAux, if_pos hy]; exact ih seen
    · rw [jsSetDedupAux, if_neg hy]
      refine List.nodup_cons.mpr ⟨?_, ih _⟩
      rw [mem_jsSetDedupAux]
      simp

theorem mem_jsSetDedup (l : List Str) (x : Str) : x ∈ jsSetDedup l ↔ x ∈ l := by
  rw [jsSetDedup, mem_jsSetDedupAux]
  simp

theorem nodup_jsSetDedup (l : List Str) : (jsSetDedup l).Nodup := nodup_jsSetDedupAux l []

/-- countP variant of `count_eq_one_of_nodup_mem`. -/
theorem countP_eq_one_of_nodup_mem : ∀ {l : List Str} {a : Str}, l.Nodup → a ∈ l →
    l.countP (fun k => decide (k = a)) = 1 := by
  intro l
  induction l with
  | nil => intro a _ ha; cases ha
  | cons x xs ih =>
    intro a hn ha
    rw [List.countP_cons]
    rcases List.mem_cons.mp ha with rfl | hmem
    · have hx : xs.countP (fun k => decide (k = a)) = 0 := by
        rw [List.countP_eq_zero]
        intro b hb
        simp only [decide_eq_true_iff]
        intro hba
        exact (List.nodup_cons.mp hn).1 (hba ▸ hb)
      simp [hx]
    · have hne : ¬ x = a := by
        intro h; subst h; exact absurd hmem (List.nodup_cons.mp hn).1
      rw [ih (List.nodup_cons.mp hn).2 hmem]
      simp [hne]

/-- C1: deduplication of suspicious-link evidence by url: when the same url
is flagged both in the threat-list part and in the heuristic part of the
evidence list, the final suspicious-links list carries exactly one entry for
that url; that entry's display string is the comma-join of the deduplicated
union of all contributed reasons, in which every contributed reason occurs
exactly once. -/
theorem finalSuspicious_dedup (A B : List LinkEntry) (u : Str)
    (hA : ∃ a ∈ A, a.url = u) (hB : ∃ b ∈ B, b.url = u) :
    (finalSuspicious (A ++ B)).countP (fun e => decide (e.url = u)) = 1 ∧
    ∀ e ∈ finalSuspicious (A ++ B), e.url = u →
      e.reasons = List.intercalate commaSep (jsSetDedup (reasonsFor (A ++ B) u)) ∧
      ∀ r ∈ reasonsFor (A ++ B) u, (jsSetDedup (reasonsFor (A ++ B) u)).count r = 1 := by
  obtain ⟨a, haA, hau⟩ := hA
  have hmem : u ∈ (A ++ B).map LinkEntry.url :=
    List.mem_map.mpr ⟨a, List.mem_append_left _ haA, hau⟩
  have hkeys : u ∈ (buildReasonMap (A ++ B)).map Prod.fst :=
    (mem_keys_buildReasonMap _ u).mpr hmem
  constructor
  · have hkc : ((buildReasonMap (A ++ B)).map Prod.fst).countP (fun k => decide (k = u)) = 1 :=
      countP_eq_one_of_nodup_mem (buildReasonMap_nodupKeys _) hkeys
    rw [List.countP_map] at hkc
    show (finalSuspicious (A ++ B)).countP (fun e => decide (e.url = u)) = 1
    rw [finalSuspicious, List.countP_map]
    exact hkc
  · intro e he heu
    simp only [finalSuspicious] at he
    obtain ⟨p, hpmem, hpe⟩ := List.mem_map.mp he
    subst hpe
    have hpu : p.1 = u := heu
    have hget : mapGet (buildReasonMap (A ++ B)) p.1 = some p.2 :=
      mapGet_of_mem_nodup (buildReasonMap_nodupKeys _) hpmem
    rw [hpu, buildReasonMap_get] at hget
    simp only [hmem, if_true] at hget
    have hval : p.2 = reasonsFor (A ++ B) u := (Option.some.injEq _ _ ▸ hget).symm
    constructor
    · show List.intercalate commaSep (jsSetDedup p.2) =
        List.intercalate commaSep (jsSetDedup (reasonsFor (A ++ B) u))
      rw [hval]
    · intro r hr
      exact count_eq_one_of_nodup_mem (nodup_jsSetDedup _) ((mem_jsSetDedup _ _).mpr hr)

theorem finalSuspicious_dedup_witness :
    (finalSuspicious
        ([⟨"http://bank.example.ru".toList, ["Google Safe Browsing match: MALWARE".toList]⟩] ++
         [⟨"http://bank.example.ru".toList, [containsReason ("bank".toList)]⟩])).countP
      (fun e => decide (e.url = "http://bank.example.ru".toList)) = 1 :=
  (finalSuspicious_dedup
    [⟨"http://bank.example.ru".toList, ["Google Safe Browsing match: MALWARE".toList]⟩]
    [⟨"http://bank.example.ru".toList, [containsReason ("bank".toList)]⟩]
    ("http://bank.example.ru".toList) (by decide) (by decide)).1

end MailShield
